import Mathlib

/-!
Shallow embedding of the readfx poly-tail fixture generators
(`src/polyx/makePolyX.py` and `src/polyx/makePolyX_multi.py`).

The Python `random` module is a single global deterministic stream seeded
once with `random.seed(seed)`.  We model it as `RState`: an abstract
infinite stream of raw natural draws plus a position.  `random.randint(a, b)`
raises `ValueError` when `b < a`; we model that with `Except String`.

In `makePolyX_multi.py` the main loop submits one batch to the thread pool
and immediately awaits `future.result()` before submitting the next batch,
so batches are generated strictly sequentially in batch-index order and the
worker count (`--threads`) plays no role in which draws are made or in what
order bytes are written.  The embedding therefore threads a single `RState`
through the batches in order, exactly as the interpreter does.
-/

namespace ReadFX

/-- Deterministic random source: an infinite stream of raw draws and a cursor.
The stream is the abstraction of the Mersenne-Twister state seeded by `seed`. -/
structure RState where
  stream : Nat → Nat
  pos : Nat

/-- Consume one raw draw. -/
def RState.take (g : RState) : Nat × RState :=
  (g.stream g.pos, ⟨g.stream, g.pos + 1⟩)

/-- `random.randint(a, b)`: uniform on `[a, b]`; raises `ValueError` if `b < a`. -/
def randint (a b : Int) (g : RState) : Except String (Int × RState) :=
  if b < a then .error "ValueError: empty range for randrange" else
    let (v, g') := g.take
    .ok (a + (v : Int) % (b - a + 1), g')

/-- The base alphabet `"ACGT"` of the source. -/
def BASES : List Char := ['A', 'C', 'G', 'T']

/-- `random.choice("ACGT")`: one draw, mapped to a base. -/
def choiceBase (g : RState) : Char × RState :=
  let (v, g') := g.take
  (BASES.getD (v % 4) 'A', g')

/-- `random.choices("ACGT", k=k)`: `k` sequential draws, each mapped to a base. -/
def choicesBases : Nat → RState → List Char × RState
  | 0, g => ([], g)
  | k+1, g =>
    let (c, g') := choiceBase g
    let (rest, g'') := choicesBases k g'
    (c :: rest, g'')

/-- The local variables `generate_sequence` computes before its final f-string:
id, poly-tail length, body length (`seq_length`), the tail and body strings,
and whether this is the tail-only (last) record. -/
structure RecParts where
  seq_id : Nat
  polytail_length : Nat
  seq_length : Nat
  polytail : List Char
  seq : List Char
  is_last : Bool
  deriving DecidableEq

/-- The random draws of `generate_sequence(seq_id, max_length, max_polytail, is_last)`:
tail length `randint(1, max_polytail)`, tail base `choice("ACGT")`, and for
non-last records also body length `randint(0, max_length - polytail_length)`
and body bases `choices("ACGT", k=seq_length)`. -/
def drawRecord (seq_id : Nat) (max_length max_polytail : Int) (is_last : Bool)
    (g : RState) : Except String (RecParts × RState) :=
  if is_last then
    match randint 1 max_polytail g with
    | .error e => .error e
    | .ok (pl, g) =>
      let (pb, g) := choiceBase g
      .ok ({ seq_id := seq_id, polytail_length := pl.toNat, seq_length := 0,
             polytail := List.replicate pl.toNat pb, seq := [], is_last := true }, g)
  else
    match randint 1 max_polytail g with
    | .error e => .error e
    | .ok (pl, g) =>
      let (pb, g) := choiceBase g
      match randint 0 (max_length - pl) g with
      | .error e => .error e
      | .ok (sl, g) =>
        let (sq, g) := choicesBases sl.toNat g
        .ok ({ seq_id := seq_id, polytail_length := pl.toNat, seq_length := sl.toNat,
               polytail := List.replicate pl.toNat pb, seq := sq, is_last := false }, g)

/-- Decimal rendering of a natural, as Python's f-string renders an int. -/
def natChars (n : Nat) : List Char := Nat.toDigits 10 n

/-- The quality string of `generate_sequence`:
`"I"*(seq_length-1) + "<" + ">" + "9"*(polytail_length-1)` when `seq_length > 0`,
else `"9"*polytail_length` (which is also the tail-only record's quality). -/
def qualOf (seq_length polytail_length : Nat) : List Char :=
  if seq_length > 0 then
    List.replicate (seq_length - 1) 'I' ++ ['<'] ++ ['>'] ++
      List.replicate (polytail_length - 1) '9'
  else
    List.replicate polytail_length '9'

/-- The header suffix written only for the tail-only record. -/
def markerChars : List Char := " onlytail=true".data

/-- The header line `@seq_<id> poly=<tail> seqlen=<body>[ onlytail=true]`. -/
def headerOf (r : RecParts) : List Char :=
  "@seq_".data ++ natChars r.seq_id ++ " poly=".data ++ natChars r.polytail_length ++
    " seqlen=".data ++ natChars r.seq_length ++
    (if r.is_last then markerChars else [])

/-- The full four-line record string returned by `generate_sequence`:
`f"<header>\n<seq+polytail>\n+\n<qual>\n"`. -/
def formatRecord (r : RecParts) : List Char :=
  headerOf r ++ ['\n'] ++ (r.seq ++ r.polytail) ++ ['\n', '+', '\n'] ++
    qualOf r.seq_length r.polytail_length ++ ['\n']

/-- `generate_sequence` itself: draw, then format. -/
def generate_sequence (seq_id : Nat) (max_length max_polytail : Int)
    (is_last : Bool) (g : RState) : Except String (List Char × RState) :=
  match drawRecord seq_id max_length max_polytail is_last g with
  | .error e => .error e
  | .ok (r, g') => .ok (formatRecord r, g')

/-- `generate_batch(start_id, batch_size, ..., last_batch)`: records with ids
`start_id .. start_id+batch_size-1`; `is_last` is set exactly for the final
record of the batch when `last_batch` holds.  Returns the records drawn before
any failure, and the resulting stream state or the first error. -/
def generate_batch (max_length max_polytail : Int) (last_batch : Bool) :
    (start_id batch_size : Nat) → RState → List RecParts × Except String RState
  | _, 0, g => ([], .ok g)
  | start_id, k+1, g =>
    match drawRecord start_id max_length max_polytail (last_batch && k == 0) g with
    | .error e => ([], .error e)
    | .ok (r, g') =>
      let (rs, res) := generate_batch max_length max_polytail last_batch (start_id + 1) k g'
      (r :: rs, res)

/-- `write_batch_to_buffer`: join the formatted records of a batch. -/
def write_batch_to_buffer (batch : List RecParts) : List Char :=
  (batch.map formatRecord).flatten

/-- The batch loop of `makePolyX_multi.main`: `remaining` batches left to run,
starting at `start_id`; each batch has size `min bs (n - start_id)` and the
final remaining batch is the last batch.  A batch that raises loses its whole
buffer (the exception propagates from `future.result()` before `write`), so an
erroring batch contributes no records to the sink. -/
def loopBatches (max_length max_polytail : Int) (n bs : Nat) :
    (remaining start_id : Nat) → RState → List RecParts × Except String RState
  | 0, _, g => ([], .ok g)
  | rem+1, start_id, g =>
    let actual := min bs (n - start_id)
    match generate_batch max_length max_polytail (rem == 0) start_id actual g with
    | (_, .error e) => ([], .error e)
    | (recs, .ok g') =>
      let (rest, res) := loopBatches max_length max_polytail n bs rem (start_id + bs) g'
      (recs ++ rest, res)

/-- `makePolyX_multi.main` after seeding: `batch_size = min(args.batch_size, n)`,
`num_batches = (n + batch_size - 1) // batch_size` (a `ZeroDivisionError` when
`batch_size` is zero, i.e. when `n = 0`), then the batch loop.  The first
component is the sequence of records whose bytes reach the sink, in order. -/
def run_multi (max_length max_polytail : Int) (num_sequences batch_size_arg : Nat)
    (g : RState) : List RecParts × Except String RState :=
  let batch_size := min batch_size_arg num_sequences
  if batch_size = 0 then ([], .error "ZeroDivisionError")
  else
    let num_batches := (num_sequences + batch_size - 1) / batch_size
    loopBatches max_length max_polytail num_sequences batch_size num_batches 0 g

/-- The bytes `makePolyX_multi` writes to the sink. -/
def run_multi_bytes (max_length max_polytail : Int) (n b : Nat) (g : RState) : List Char :=
  ((run_multi max_length max_polytail n b g).1.map formatRecord).flatten

/-- The per-record loop of `makePolyX.main`: `count` non-last records starting
at id `next_id`, each written to the sink as soon as it is generated. -/
def loopSingle (max_length max_polytail : Int) :
    (count next_id : Nat) → RState → List RecParts × Except String RState
  | 0, _, g => ([], .ok g)
  | k+1, i, g =>
    match drawRecord i max_length max_polytail false g with
    | .error e => ([], .error e)
    | .ok (r, g') =>
      let (rest, res) := loopSingle max_length max_polytail k (i + 1) g'
      (r :: rest, res)

/-- `makePolyX.main` after seeding: `num_sequences - 1` non-last records with
ids `0 .. n-2`, then the tail-only record with id `n-1`. -/
def run_single (max_length max_polytail : Int) (num_sequences : Nat)
    (g : RState) : List RecParts × Except String RState :=
  match loopSingle max_length max_polytail (num_sequences - 1) 0 g with
  | (pre, .error e) => (pre, .error e)
  | (pre, .ok g') =>
    match drawRecord (num_sequences - 1) max_length max_polytail true g' with
    | .error e => (pre, .error e)
    | .ok (r, g'') => (pre ++ [r], .ok g'')

/-- The bytes `makePolyX` writes to the sink. -/
def run_single_bytes (max_length max_polytail : Int) (n : Nat) (g : RState) : List Char :=
  ((run_single max_length max_polytail n g).1.map formatRecord).flatten

/-- `startsWith pat l`: `pat` is an initial segment of `l`. -/
def startsWith : List Char → List Char → Bool
  | [], _ => true
  | _ :: _, [] => false
  | c :: cs, d :: ds => c == d && startsWith cs ds

/-- `containsSeg pat l`: `pat` occurs as a contiguous segment of `l`
(the substring test used to observe the `onlytail=true` marker). -/
def containsSeg (pat : List Char) : List Char → Bool
  | [] => pat.isEmpty
  | c :: cs => startsWith pat (c :: cs) || containsSeg pat cs

theorem randint_eq_ok {a b x : Int} {g g' : RState}
    (h : randint a b g = .ok (x, g')) :
    a ≤ x ∧ x ≤ b ∧ g' = ⟨g.stream, g.pos + 1⟩ := by
  unfold randint at h
  split at h
  · exact absurd h (by simp)
  · next hba =>
    simp only [RState.take, Except.ok.injEq, Prod.mk.injEq] at h
    obtain ⟨hx, hg⟩ := h
    have hpos : (0 : Int) < b - a + 1 := by omega
    have h0 : 0 ≤ (g.stream g.pos : Int) % (b - a + 1) := Int.emod_nonneg _ (by omega)
    have h1 : (g.stream g.pos : Int) % (b - a + 1) < b - a + 1 := Int.emod_lt_of_pos _ hpos
    refine ⟨by omega, by omega, hg.symm⟩

theorem randint_of_le {a b : Int} (g : RState) (h : a ≤ b) :
    randint a b g =
      .ok (a + (g.stream g.pos : Int) % (b - a + 1), ⟨g.stream, g.pos + 1⟩) := by
  unfold randint
  rw [if_neg (by omega)]
  rfl

theorem randint_of_lt {a b : Int} (g : RState) (h : b < a) :
    randint a b g = .error "ValueError: empty range for randrange" := by
  unfold randint
  rw [if_pos h]

theorem choiceBase_mem (g : RState) : (choiceBase g).1 ∈ BASES := by
  show BASES.getD (g.stream g.pos % 4) 'A' ∈ BASES
  have h4 : g.stream g.pos % 4 < 4 := Nat.mod_lt _ (by omega)
  have hall : ∀ i, i < 4 → BASES.getD i 'A' ∈ BASES := by decide
  exact hall _ h4

theorem choicesBases_succ (k : Nat) (g : RState) :
    choicesBases (k + 1) g =
      ((choiceBase g).1 :: (choicesBases k (choiceBase g).2).1,
        (choicesBases k (choiceBase g).2).2) := rfl

theorem choicesBases_length (k : Nat) (g : RState) :
    (choicesBases k g).1.length = k := by
  induction k generalizing g with
  | zero => rfl
  | succ k ih => rw [choicesBases_succ]; simp [ih]

theorem choicesBases_mem : ∀ (k : Nat) (g : RState), ∀ c ∈ (choicesBases k g).1, c ∈ BASES := by
  intro k
  induction k with
  | zero => intro g c hc; simp [choicesBases] at hc
  | succ k ih =>
    intro g c hc
    rw [choicesBases_succ] at hc
    rcases List.mem_cons.mp hc with h | h
    · exact h ▸ choiceBase_mem g
    · exact ih _ c h

theorem drawRecord_true_eq (seq_id : Nat) (m p : Int) {pl : Int} {g g₁ : RState}
    (hr : randint 1 p g = .ok (pl, g₁)) :
    drawRecord seq_id m p true g =
      .ok ({ seq_id := seq_id, polytail_length := pl.toNat, seq_length := 0,
             polytail := List.replicate pl.toNat (choiceBase g₁).1, seq := [],
             is_last := true }, (choiceBase g₁).2) := by
  unfold drawRecord
  rw [if_pos rfl, hr]

theorem drawRecord_false_eq (seq_id : Nat) (m p : Int) {pl sl : Int} {g g₁ g₂ : RState}
    (hr : randint 1 p g = .ok (pl, g₁))
    (hr2 : randint 0 (m - pl) (choiceBase g₁).2 = .ok (sl, g₂)) :
    drawRecord seq_id m p false g =
      .ok ({ seq_id := seq_id, polytail_length := pl.toNat, seq_length := sl.toNat,
             polytail := List.replicate pl.toNat (choiceBase g₁).1,
             seq := (choicesBases sl.toNat g₂).1,
             is_last := false }, (choicesBases sl.toNat g₂).2) := by
  unfold drawRecord
  rw [if_neg (by simp), hr]
  rcases hcb : choiceBase g₁ with ⟨pb, gb⟩
  rw [hcb] at hr2
  simp only [hcb, hr2]

theorem drawRecord_err_eq {e : String} (seq_id : Nat) (m p : Int) (last : Bool) {g : RState}
    (hr : randint 1 p g = .error e) :
    drawRecord seq_id m p last g = .error e := by
  unfold drawRecord
  cases last
  · rw [if_neg (by simp), hr]
  · rw [if_pos rfl, hr]

theorem drawRecord_false_err2 {e : String} (seq_id : Nat) (m p : Int) {pl : Int} {g g₁ : RState}
    (hr : randint 1 p g = .ok (pl, g₁))
    (hr2 : randint 0 (m - pl) (choiceBase g₁).2 = .error e) :
    drawRecord seq_id m p false g = .error e := by
  unfold drawRecord
  rw [if_neg (by simp), hr]
  rcases hcb : choiceBase g₁ with ⟨pb, gb⟩
  rw [hcb] at hr2
  simp only [hcb, hr2]

theorem drawRecord_ok {seq_id : Nat} {m p : Int} {last : Bool} {g g' : RState}
    {r : RecParts} (h : drawRecord seq_id m p last g = .ok (r, g')) :
    r.seq_id = seq_id ∧ r.is_last = last ∧
    1 ≤ r.polytail_length ∧ (r.polytail_length : Int) ≤ p ∧
    (∃ pb ∈ BASES, r.polytail = List.replicate r.polytail_length pb) ∧
    r.seq.length = r.seq_length ∧ (∀ c ∈ r.seq, c ∈ BASES) ∧
    (last = true → r.seq_length = 0 ∧ r.seq = []) ∧
    (last = false → (r.seq_length : Int) + r.polytail_length ≤ m) := by
  cases last
  · cases hr : randint 1 p g with
    | error e => rw [drawRecord_err_eq seq_id m p false hr] at h; exact absurd h (by simp)
    | ok v =>
      obtain ⟨pl, g₁⟩ := v
      obtain ⟨h1, hpl, -⟩ := randint_eq_ok hr
      cases hr2 : randint 0 (m - pl) (choiceBase g₁).2 with
      | error e => rw [drawRecord_false_err2 seq_id m p hr hr2] at h; exact absurd h (by simp)
      | ok v2 =>
        obtain ⟨sl, g₂⟩ := v2
        obtain ⟨h0, hsl, -⟩ := randint_eq_ok hr2
        rw [drawRecord_false_eq seq_id m p hr hr2] at h
        simp only [Except.ok.injEq, Prod.mk.injEq] at h
        obtain ⟨hrr, -⟩ := h
        subst hrr
        refine ⟨rfl, rfl, by simp; omega, by simp; omega,
          ⟨(choiceBase g₁).1, choiceBase_mem g₁, rfl⟩,
          choicesBases_length _ _, choicesBases_mem _ _, by simp, ?_⟩
        intro _
        simp only
        omega
  · cases hr : randint 1 p g with
    | error e => rw [drawRecord_err_eq seq_id m p true hr] at h; exact absurd h (by simp)
    | ok v =>
      obtain ⟨pl, g₁⟩ := v
      obtain ⟨h1, hpl, -⟩ := randint_eq_ok hr
      rw [drawRecord_true_eq seq_id m p hr] at h
      simp only [Except.ok.injEq, Prod.mk.injEq] at h
      obtain ⟨hrr, -⟩ := h
      subst hrr
      refine ⟨rfl, rfl, by simp; omega, by simp; omega,
        ⟨(choiceBase g₁).1, choiceBase_mem g₁, rfl⟩, rfl, by simp, by simp, by simp⟩

theorem randint_ok_of_le {a b : Int} (g : RState) (h : a ≤ b) :
    ∃ x g', randint a b g = .ok (x, g') ∧ a ≤ x ∧ x ≤ b := by
  have hr := randint_of_le g h
  exact ⟨_, _, hr, (randint_eq_ok hr).1, (randint_eq_ok hr).2.1⟩

theorem drawRecord_ok_of_valid (seq_id : Nat) {m p : Int} (last : Bool) (g : RState)
    (hp : 1 ≤ p) (hm : p ≤ m) :
    ∃ r g', drawRecord seq_id m p last g = .ok (r, g') := by
  obtain ⟨pl, g₁, hr, h1, hpl⟩ := randint_ok_of_le g hp
  cases last
  · obtain ⟨sl, g₂, hr2, -, -⟩ :=
      randint_ok_of_le (choiceBase g₁).2 (show (0 : Int) ≤ m - pl by omega)
    exact ⟨_, _, drawRecord_false_eq seq_id m p hr hr2⟩
  · exact ⟨_, _, drawRecord_true_eq seq_id m p hr⟩

theorem drawRecord_err_of_p_lt_one (seq_id : Nat) {m p : Int} (last : Bool) (g : RState)
    (hp : p < 1) :
    drawRecord seq_id m p last g = .error "ValueError: empty range for randrange" :=
  drawRecord_err_eq seq_id m p last (randint_of_lt g hp)

theorem generate_batch_succ_eq {m p : Int} {last : Bool} {s k : Nat} {g g' : RState}
    {r : RecParts} (h : drawRecord s m p (last && k == 0) g = .ok (r, g')) :
    generate_batch m p last s (k + 1) g =
      (r :: (generate_batch m p last (s + 1) k g').1,
        (generate_batch m p last (s + 1) k g').2) := by
  conv_lhs => rw [generate_batch]
  rw [h]

theorem generate_batch_succ_err {m p : Int} {last : Bool} {s k : Nat} {g : RState} {e : String}
    (h : drawRecord s m p (last && k == 0) g = .error e) :
    generate_batch m p last s (k + 1) g = ([], .error e) := by
  conv_lhs => rw [generate_batch]
  rw [h]

theorem generate_batch_ok_of_valid {m p : Int} (hp : 1 ≤ p) (hm : p ≤ m) (last : Bool) :
    ∀ (k s : Nat) (g : RState), ∃ g', (generate_batch m p last s k g).2 = .ok g' := by
  intro k
  induction k with
  | zero => intro s g; exact ⟨g, rfl⟩
  | succ k ih =>
    intro s g
    obtain ⟨r, g₁, hr⟩ := drawRecord_ok_of_valid s (last && k == 0) g hp hm
    obtain ⟨g', hg'⟩ := ih (s + 1) g₁
    rw [generate_batch_succ_eq hr]
    exact ⟨g', hg'⟩

theorem generate_batch_ids {m p : Int} (hp : 1 ≤ p) (hm : p ≤ m) (last : Bool) :
    ∀ (k s : Nat) (g : RState),
      (generate_batch m p last s k g).1.map RecParts.seq_id = List.range' s k := by
  intro k
  induction k with
  | zero => intro s g; rfl
  | succ k ih =>
    intro s g
    obtain ⟨r, g₁, hr⟩ := drawRecord_ok_of_valid s (last && k == 0) g hp hm
    rw [generate_batch_succ_eq hr]
    have hid : r.seq_id = s := (drawRecord_ok hr).1
    show r.seq_id :: _ = List.range' s (k + 1)
    rw [List.range'_succ, hid, ih (s + 1) g₁]

theorem generate_batch_mem {m p : Int} {last : Bool} :
    ∀ (k s : Nat) (g : RState), ∀ r ∈ (generate_batch m p last s k g).1,
      ∃ id last' g₀ g₁, drawRecord id m p last' g₀ = .ok (r, g₁) := by
  intro k
  induction k with
  | zero => intro s g r hr; simp [generate_batch] at hr
  | succ k ih =>
    intro s g r hr
    cases hd : drawRecord s m p (last && k == 0) g with
    | error e => rw [generate_batch_succ_err hd] at hr; simp at hr
    | ok v =>
      obtain ⟨r₀, g₁⟩ := v
      rw [generate_batch_succ_eq hd] at hr
      rcases List.mem_cons.mp hr with h | h
      · exact ⟨s, _, g, g₁, h ▸ hd⟩
      · exact ih (s + 1) g₁ r h

theorem generate_batch_false_flags {m p : Int} :
    ∀ (k s : Nat) (g : RState), ∀ r ∈ (generate_batch m p false s k g).1,
      r.is_last = false := by
  intro k
  induction k with
  | zero => intro s g r hr; simp [generate_batch] at hr
  | succ k ih =>
    intro s g r hr
    cases hd : drawRecord s m p (false && k == 0) g with
    | error e => rw [generate_batch_succ_err hd] at hr; simp at hr
    | ok v =>
      obtain ⟨r₀, g₁⟩ := v
      rw [generate_batch_succ_eq hd] at hr
      rcases List.mem_cons.mp hr with h | h
      · have := (drawRecord_ok hd).2.1
        simpa [h] using this
      · exact ih (s + 1) g₁ r h

theorem generate_batch_split {m p : Int} {last : Bool} {k : Nat} (hk : 1 ≤ k) :
    ∀ (j s : Nat) (g : RState),
      generate_batch m p last s (j + k) g =
        (match generate_batch m p false s j g with
          | (r₁, .error e) => (r₁, .error e)
          | (r₁, .ok g') =>
            (r₁ ++ (generate_batch m p last (s + j) k g').1,
              (generate_batch m p last (s + j) k g').2)) := by
  intro j
  induction j with
  | zero =>
    intro s g
    show generate_batch m p last s (0 + k) g =
      ([] ++ (generate_batch m p last (s + 0) k g).1, (generate_batch m p last (s + 0) k g).2)
    simp
  | succ j ih =>
    intro s g
    have harith : j + 1 + k = (j + k) + 1 := by omega
    rw [harith]
    have hflag : (last && (j + k) == 0) = false := by
      have hne : j + k ≠ 0 := by omega
      simp [hne]
    cases hr : drawRecord s m p false g with
    | error e =>
      have hr' : drawRecord s m p (last && (j + k) == 0) g = .error e := by
        rw [hflag]; exact hr
      have hrr : drawRecord s m p (false && j == 0) g = .error e := by
        rw [show (false && j == 0) = false by simp]; exact hr
      rw [generate_batch_succ_err hr', generate_batch_succ_err hrr]
    | ok v =>
      obtain ⟨r, g₁⟩ := v
      have hr' : drawRecord s m p (last && (j + k) == 0) g = .ok (r, g₁) := by
        rw [hflag]; exact hr
      have hrr : drawRecord s m p (false && j == 0) g = .ok (r, g₁) := by
        rw [show (false && j == 0) = false by simp]; exact hr
      rw [generate_batch_succ_eq hr', generate_batch_succ_eq hrr, ih (s + 1) g₁]
      have hsj : s + 1 + j = s + (j + 1) := by omega
      rcases hC : generate_batch m p false (s + 1) j g₁ with ⟨r₁, res⟩
      cases res with
      | error e => simp [hsj]
      | ok g₂ => simp [hsj]

theorem loopBatches_succ_ok {m p : Int} {n bs rem s : Nat} {g g' : RState}
    {recs : List RecParts}
    (h : generate_batch m p (rem == 0) s (min bs (n - s)) g = (recs, .ok g')) :
    loopBatches m p n bs (rem + 1) s g =
      (recs ++ (loopBatches m p n bs rem (s + bs) g').1,
        (loopBatches m p n bs rem (s + bs) g').2) := by
  conv_lhs => rw [loopBatches]
  rw [h]

theorem loopBatches_succ_err {m p : Int} {n bs rem s : Nat} {g : RState} {e : String}
    {recs : List RecParts}
    (h : generate_batch m p (rem == 0) s (min bs (n - s)) g = (recs, .error e)) :
    loopBatches m p n bs (rem + 1) s g = ([], .error e) := by
  conv_lhs => rw [loopBatches]
  rw [h]

theorem loopBatches_eq_flat {m p : Int} (hp : 1 ≤ p) (hm : p ≤ m) {n bs : Nat} :
    ∀ (rem : Nat), ∀ (s : Nat) (g : RState) (c : Nat), 1 ≤ c → c ≤ bs →
      n = s + rem * bs + c →
      loopBatches m p n bs (rem + 1) s g = generate_batch m p true s (n - s) g := by
  intro rem
  induction rem with
  | zero =>
    intro s g c hc1 hc2 hn
    have hmin : min bs (n - s) = n - s := by omega
    rcases hB : generate_batch m p true s (n - s) g with ⟨recs, res⟩
    obtain ⟨g', hg'⟩ := generate_batch_ok_of_valid hp hm true (n - s) s g
    rw [hB] at hg'
    simp only at hg'
    subst hg'
    have hB' : generate_batch m p ((0 : Nat) == 0) s (min bs (n - s)) g = (recs, .ok g') := by
      rw [hmin]; exact hB
    rw [loopBatches_succ_ok hB']
    simp [loopBatches]
  | succ rem ih =>
    intro s g c hc1 hc2 hn
    have hsm : (rem + 1) * bs = rem * bs + bs := Nat.succ_mul rem bs
    rw [hsm] at hn
    have hge : bs + 1 ≤ n - s := by
      generalize rem * bs = A at hn
      omega
    have hmin : min bs (n - s) = bs := by omega
    rcases hB : generate_batch m p false s bs g with ⟨recs, res⟩
    obtain ⟨g', hg'⟩ := generate_batch_ok_of_valid hp hm false bs s g
    rw [hB] at hg'
    simp only at hg'
    subst hg'
    have hB' : generate_batch m p ((rem + 1 : Nat) == 0) s (min bs (n - s)) g =
        (recs, .ok g') := by
      rw [hmin, show ((rem + 1 : Nat) == 0) = false from rfl]; exact hB
    rw [loopBatches_succ_ok hB']
    have hinv : n = (s + bs) + rem * bs + c := by
      generalize rem * bs = A at hn ⊢
      omega
    rw [ih (s + bs) g' c hc1 hc2 hinv]
    have hk : 1 ≤ n - s - bs := by
      generalize rem * bs = A at hn
      omega
    have hns : n - s = bs + (n - s - bs) := by
      generalize rem * bs = A at hn
      omega
    rw [hns, generate_batch_split hk bs s g, hB, Nat.sub_sub]

theorem ceil_decomp (n bs : Nat) (hbs : 1 ≤ bs) :
    ∀ (hn : 1 ≤ n),
      ∃ rem c, (n + bs - 1) / bs = rem + 1 ∧ 1 ≤ c ∧ c ≤ bs ∧ n = rem * bs + c := by
  induction n using Nat.strong_induction_on with
  | _ n ih =>
    intro hn
    by_cases h : n ≤ bs
    · refine ⟨0, n, ?_, hn, h, by omega⟩
      have hdiv : (n + bs - 1) / bs = 1 :=
        Nat.div_eq_of_lt_le (by omega) (by omega)
      omega
    · obtain ⟨rem, c, hq, hc1, hc2, hnc⟩ := ih (n - bs) (by omega) (by omega)
      refine ⟨rem + 1, c, ?_, hc1, hc2, ?_⟩
      · have e1 : n + bs - 1 = (n - bs + bs - 1) + bs := by omega
        rw [e1, Nat.add_div_right _ (by omega), hq]
      · rw [Nat.succ_mul]
        generalize rem * bs = A at hnc ⊢
        omega

theorem run_multi_eq_flat {m p : Int} (hp : 1 ≤ p) (hm : p ≤ m) {n b : Nat}
    (hn : 1 ≤ n) (hb : 1 ≤ b) (g : RState) :
    run_multi m p n b g = generate_batch m p true 0 n g := by
  have hbs : 1 ≤ min b n := le_min hb hn
  show (if min b n = 0 then (([], .error "ZeroDivisionError") : List RecParts × Except String RState)
    else loopBatches m p n (min b n) ((n + min b n - 1) / min b n) 0 g) =
    generate_batch m p true 0 n g
  rw [if_neg (by omega)]
  obtain ⟨rem, c, hq, hc1, hc2, hnc⟩ := ceil_decomp n (min b n) hbs hn
  rw [hq, loopBatches_eq_flat hp hm rem 0 g c hc1 hc2 (by rw [Nat.zero_add]; exact hnc),
    Nat.sub_zero]

theorem loopSingle_eq_batch {m p : Int} :
    ∀ (k i : Nat) (g : RState),
      loopSingle m p k i g = generate_batch m p false i k g := by
  intro k
  induction k with
  | zero => intro i g; rfl
  | succ k ih =>
    intro i g
    cases hd : drawRecord i m p false g with
    | error e =>
      have hd' : drawRecord i m p (false && k == 0) g = .error e := by
        rw [show (false && k == 0) = false from by simp]; exact hd
      rw [generate_batch_succ_err hd']
      conv_lhs => rw [loopSingle]
      rw [hd]
    | ok v =>
      obtain ⟨r, g₁⟩ := v
      have hd' : drawRecord i m p (false && k == 0) g = .ok (r, g₁) := by
        rw [show (false && k == 0) = false from by simp]; exact hd
      rw [generate_batch_succ_eq hd']
      conv_lhs => rw [loopSingle]
      rw [hd]
      dsimp only
      rw [ih (i + 1) g₁]

theorem run_single_eq_flat {m p : Int} (hp : 1 ≤ p) (hm : p ≤ m) {n : Nat}
    (hn : 1 ≤ n) (g : RState) :
    run_single m p n g = generate_batch m p true 0 n g := by
  rcases hB : generate_batch m p false 0 (n - 1) g with ⟨pre, res⟩
  obtain ⟨g₁, hg₁⟩ := generate_batch_ok_of_valid hp hm false (n - 1) 0 g
  rw [hB] at hg₁
  simp only at hg₁
  subst hg₁
  obtain ⟨r, g₂, hd⟩ := drawRecord_ok_of_valid (n - 1) true g₁ hp hm
  have lhs_eq : run_single m p n g = (pre ++ [r], .ok g₂) := by
    unfold run_single
    rw [loopSingle_eq_batch, hB]
    dsimp only
    rw [hd]
  have hd' : drawRecord (n - 1) m p (true && (0 : Nat) == 0) g₁ = .ok (r, g₂) := by
    rw [show (true && ((0 : Nat) == 0)) = true from rfl]; exact hd
  have hD : generate_batch m p true (n - 1) 1 g₁ = ([r], .ok g₂) := by
    rw [show (1 : Nat) = 0 + 1 from rfl, generate_batch_succ_eq hd']
    rfl
  rw [lhs_eq]
  conv_rhs => rw [show n = (n - 1) + 1 by omega]
  rw [generate_batch_split (le_refl 1) (n - 1) 0 g, hB]
  dsimp only
  rw [Nat.zero_add, hD]

theorem digitChar_isDigit : ∀ k, k < 10 → (Nat.digitChar k).isDigit = true := by decide

theorem toDigitsCore_digits :
    ∀ (fuel n : Nat) (ds : List Char), (∀ c ∈ ds, c.isDigit = true) →
      ∀ c ∈ Nat.toDigitsCore 10 fuel n ds, c.isDigit = true := by
  intro fuel
  induction fuel with
  | zero => intro n ds hds c hc; exact hds c hc
  | succ fuel ih =>
    intro n ds hds c hc
    simp only [Nat.toDigitsCore] at hc
    have hd : (Nat.digitChar (n % 10)).isDigit = true :=
      digitChar_isDigit _ (Nat.mod_lt _ (by omega))
    split at hc
    · rcases List.mem_cons.mp hc with h | h
      · exact h ▸ hd
      · exact hds c h
    · refine ih _ _ ?_ c hc
      intro c' hc'
      rcases List.mem_cons.mp hc' with h | h
      · exact h ▸ hd
      · exact hds c' h

theorem natChars_digits (n : Nat) : ∀ c ∈ natChars n, c.isDigit = true :=
  toDigitsCore_digits _ _ [] (by simp)

theorem char_not_mem_natChars {c : Char} (n : Nat) (h : c.isDigit = false) :
    c ∉ natChars n := by
  intro hc
  have htrue := natChars_digits n c hc
  rw [h] at htrue
  exact Bool.false_ne_true htrue

theorem startsWith_iff : ∀ (pat l : List Char), startsWith pat l = true ↔ ∃ t, l = pat ++ t := by
  intro pat
  induction pat with
  | nil => intro l; simp [startsWith]
  | cons c cs ih =>
    intro l
    cases l with
    | nil => simp [startsWith]
    | cons d ds =>
      simp only [startsWith, Bool.and_eq_true, beq_iff_eq]
      constructor
      · rintro ⟨rfl, h⟩
        obtain ⟨t, rfl⟩ := (ih ds).mp h
        exact ⟨t, rfl⟩
      · rintro ⟨t, ht⟩
        injection ht with h1 h2
        exact ⟨h1.symm, (ih ds).mpr ⟨t, h2⟩⟩

theorem containsSeg_iff : ∀ (pat l : List Char),
    containsSeg pat l = true ↔ ∃ s t, l = s ++ pat ++ t := by
  intro pat l
  induction l with
  | nil =>
    simp only [containsSeg]
    rw [List.isEmpty_iff]
    constructor
    · rintro rfl; exact ⟨[], [], rfl⟩
    · rintro ⟨s, t, h⟩
      rcases List.append_eq_nil.mp h.symm with ⟨hsp, -⟩
      exact (List.append_eq_nil.mp hsp).2
  | cons d ds ih =>
    simp only [containsSeg, Bool.or_eq_true, startsWith_iff, ih]
    constructor
    · rintro (⟨t, ht⟩ | ⟨s, t, rfl⟩)
      · exact ⟨[], t, by simpa using ht⟩
      · exact ⟨d :: s, t, rfl⟩
    · rintro ⟨s, t, h⟩
      cases s with
      | nil => exact Or.inl ⟨t, by simpa using h⟩
      | cons a as =>
        injection h with h1 h2
        exact Or.inr ⟨as, t, h2⟩

theorem containsSeg_of_parts (pat s t : List Char) :
    containsSeg pat (s ++ pat ++ t) = true :=
  (containsSeg_iff pat _).mpr ⟨s, t, rfl⟩

theorem containsSeg_eq_false {pat l : List Char} {c : Char}
    (hc : c ∈ pat) (hl : c ∉ l) : containsSeg pat l = false := by
  cases hcs : containsSeg pat l with
  | false => rfl
  | true =>
    obtain ⟨s, t, rfl⟩ := (containsSeg_iff pat l).mp hcs
    exact absurd (by simp [hc] : c ∈ s ++ pat ++ t) hl

theorem mem_headerOf {r : RecParts} {c : Char} (hc : c ∈ headerOf r) :
    c ∈ "@seq_".data ∨ c.isDigit = true ∨ c ∈ " poly=".data ∨ c ∈ " seqlen=".data ∨
      (r.is_last = true ∧ c ∈ markerChars) := by
  unfold headerOf at hc
  rcases List.mem_append.mp hc with h6 | hmk
  · rcases List.mem_append.mp h6 with h5 | hn3
    · rcases List.mem_append.mp h5 with h4 | hlit3
      · rcases List.mem_append.mp h4 with h3 | hn2
        · rcases List.mem_append.mp h3 with h2 | hlit2
          · rcases List.mem_append.mp h2 with hlit1 | hn1
            · exact Or.inl hlit1
            · exact Or.inr (Or.inl (natChars_digits _ c hn1))
          · exact Or.inr (Or.inr (Or.inl hlit2))
        · exact Or.inr (Or.inl (natChars_digits _ c hn2))
      · exact Or.inr (Or.inr (Or.inr (Or.inl hlit3)))
    · exact Or.inr (Or.inl (natChars_digits _ c hn3))
  · split at hmk
    · next hl => exact Or.inr (Or.inr (Or.inr (Or.inr ⟨hl, hmk⟩)))
    · simp at hmk

theorem newline_not_mem_headerOf (r : RecParts) : '\n' ∉ headerOf r := by
  intro hc
  rcases mem_headerOf hc with h | h | h | h | ⟨-, h⟩ <;> revert h <;> decide

theorem u_not_mem_headerOf {r : RecParts} (hl : r.is_last = false) : 'u' ∉ headerOf r := by
  intro hc
  rcases mem_headerOf hc with h | h | h | h | ⟨ht, h⟩
  · revert h; decide
  · revert h; decide
  · revert h; decide
  · revert h; decide
  · rw [hl] at ht; exact Bool.false_ne_true ht

theorem mem_qualOf {L T : Nat} {c : Char} (hc : c ∈ qualOf L T) :
    c = 'I' ∨ c = '<' ∨ c = '>' ∨ c = '9' := by
  unfold qualOf at hc
  split at hc
  · simp only [List.mem_append, List.mem_replicate, List.mem_singleton] at hc
    tauto
  · exact Or.inr (Or.inr (Or.inr (List.eq_of_mem_replicate hc)))

theorem newline_not_mem_qualOf {L T : Nat} : '\n' ∉ qualOf L T := by
  intro hc
  rcases mem_qualOf hc with h | h | h | h <;> revert h <;> decide

theorem u_not_mem_qualOf {L T : Nat} : 'u' ∉ qualOf L T := by
  intro hc
  rcases mem_qualOf hc with h | h | h | h <;> revert h <;> decide

theorem not_mem_of_bases {l : List Char} {c : Char} (hb : ∀ x ∈ l, x ∈ BASES)
    (hc : c ∉ BASES) : c ∉ l :=
  fun h => hc (hb c h)

theorem count_newline_formatRecord {r : RecParts}
    (hseq : ∀ x ∈ r.seq, x ∈ BASES) (hpt : ∀ x ∈ r.polytail, x ∈ BASES) :
    List.count '\n' (formatRecord r) = 4 := by
  unfold formatRecord
  have h1 : List.count '\n' (headerOf r) = 0 :=
    List.count_eq_zero_of_not_mem (newline_not_mem_headerOf r)
  have h2 : List.count '\n' (r.seq ++ r.polytail) = 0 :=
    List.count_eq_zero_of_not_mem (by
      simp only [List.mem_append, not_or]
      exact ⟨not_mem_of_bases hseq (by decide), not_mem_of_bases hpt (by decide)⟩)
  have h3 : List.count '\n' (qualOf r.seq_length r.polytail_length) = 0 :=
    List.count_eq_zero_of_not_mem newline_not_mem_qualOf
  have h2a : List.count '\n' r.seq = 0 :=
    List.count_eq_zero_of_not_mem (not_mem_of_bases hseq (by decide))
  have h2b : List.count '\n' r.polytail = 0 :=
    List.count_eq_zero_of_not_mem (not_mem_of_bases hpt (by decide))
  simp [List.count_append, h1, h2a, h2b, h3, List.count_cons]

theorem marker_containsSeg_of_last {r : RecParts} (hl : r.is_last = true) :
    containsSeg markerChars (formatRecord r) = true := by
  apply (containsSeg_iff _ _).mpr
  refine ⟨"@seq_".data ++ natChars r.seq_id ++ " poly=".data ++ natChars r.polytail_length ++
    " seqlen=".data ++ natChars r.seq_length,
    ['\n'] ++ (r.seq ++ r.polytail) ++ ['\n', '+', '\n'] ++
      qualOf r.seq_length r.polytail_length ++ ['\n'], ?_⟩
  unfold formatRecord headerOf
  rw [if_pos hl]
  simp [List.append_assoc]

theorem u_not_mem_formatRecord {r : RecParts} (hl : r.is_last = false)
    (hseq : ∀ x ∈ r.seq, x ∈ BASES) (hpt : ∀ x ∈ r.polytail, x ∈ BASES) :
    'u' ∉ formatRecord r := by
  intro hc
  unfold formatRecord at hc
  rcases List.mem_append.mp hc with h5 | h
  · rcases List.mem_append.mp h5 with h4 | h
    · rcases List.mem_append.mp h4 with h3 | h
      · rcases List.mem_append.mp h3 with h2 | h
        · rcases List.mem_append.mp h2 with h1 | h
          · exact u_not_mem_headerOf hl h1
          · revert h; decide
        · rcases List.mem_append.mp h with ha | hb
          · exact not_mem_of_bases hseq (by decide) ha
          · exact not_mem_of_bases hpt (by decide) hb
      · revert h; decide
    · exact u_not_mem_qualOf h
  · revert h; decide

theorem marker_not_containsSeg {r : RecParts} (hl : r.is_last = false)
    (hseq : ∀ x ∈ r.seq, x ∈ BASES) (hpt : ∀ x ∈ r.polytail, x ∈ BASES) :
    containsSeg markerChars (formatRecord r) = false :=
  containsSeg_eq_false (show 'u' ∈ markerChars by decide)
    (u_not_mem_formatRecord hl hseq hpt)

theorem qualOf_zero (T : Nat) : qualOf 0 T = List.replicate T '9' := by
  simp [qualOf]

theorem qualOf_length {L T : Nat} (hT : 1 ≤ T) : (qualOf L T).length = L + T := by
  rcases Nat.eq_zero_or_pos L with h0 | hpos
  · subst h0; simp [qualOf]
  · unfold qualOf
    rw [if_pos hpos]
    simp only [List.length_append, List.length_replicate, List.length_cons,
      List.length_nil]
    omega

theorem qualOf_getElem {L T : Nat} (hL : 1 ≤ L) (hT : 1 ≤ T) :
    (∀ i, i < L - 1 → (qualOf L T)[i]? = some 'I') ∧
    (qualOf L T)[L - 1]? = some '<' ∧
    (qualOf L T)[L]? = some '>' ∧
    (∀ j, L + 1 ≤ j → j < L + T → (qualOf L T)[j]? = some '9') := by
  unfold qualOf
  rw [if_pos (by omega)]
  refine ⟨?_, ?_, ?_, ?_⟩
  · intro i hi
    rw [List.getElem?_append_left (by
        simp only [List.length_append, List.length_replicate, List.length_cons,
          List.length_nil]
        omega),
      List.getElem?_append_left (by
        simp only [List.length_append, List.length_replicate, List.length_cons,
          List.length_nil]
        omega),
      List.getElem?_append_left (by simp only [List.length_replicate]; omega)]
    exact List.getElem?_replicate_of_lt hi
  · rw [List.getElem?_append_left (by
        simp only [List.length_append, List.length_replicate, List.length_cons,
          List.length_nil]
        omega),
      List.getElem?_append_left (by
        simp only [List.length_append, List.length_replicate, List.length_cons,
          List.length_nil]
        omega),
      List.getElem?_append_right (by simp only [List.length_replicate]; omega)]
    simp
  · rw [List.getElem?_append_left (by
        simp only [List.length_append, List.length_replicate, List.length_cons,
          List.length_nil]
        omega),
      List.getElem?_append_right (by
        simp only [List.length_append, List.length_replicate, List.length_cons,
          List.length_nil]
        omega)]
    simp only [List.length_append, List.length_replicate, List.length_cons,
      List.length_nil]
    rw [show L - (L - 1 + 1) = 0 by omega]
    simp
  · intro j hj1 hj2
    rw [List.getElem?_append_right (by
        simp only [List.length_append, List.length_replicate, List.length_cons,
          List.length_nil]
        omega)]
    refine List.getElem?_replicate_of_lt ?_
    simp only [List.length_append, List.length_replicate, List.length_cons,
      List.length_nil]
    omega

theorem drawn_polytail_bases {seq_id : Nat} {m p : Int} {last : Bool} {g g' : RState}
    {r : RecParts} (h : drawRecord seq_id m p last g = .ok (r, g')) :
    ∀ x ∈ r.polytail, x ∈ BASES := by
  obtain ⟨-, -, -, -, ⟨pb, hpb, hrep⟩, -⟩ := drawRecord_ok h
  rw [hrep]
  intro x hx
  rw [List.eq_of_mem_replicate hx]
  exact hpb

theorem marker_eq_is_last_of_drawn {seq_id : Nat} {m p : Int} {last : Bool} {g g' : RState}
    {r : RecParts} (h : drawRecord seq_id m p last g = .ok (r, g')) :
    containsSeg markerChars (formatRecord r) = r.is_last := by
  obtain ⟨-, -, -, -, -, -, hseq, -⟩ := drawRecord_ok h
  cases hc : r.is_last
  · exact marker_not_containsSeg hc hseq (drawn_polytail_bases h)
  · exact marker_containsSeg_of_last hc

theorem generate_batch_true_decomp {m p : Int} (hp : 1 ≤ p) (hm : p ≤ m)
    {n : Nat} (hn : 1 ≤ n) (g : RState) :
    ∃ pre r g₁ g₂, generate_batch m p true 0 n g = (pre ++ [r], .ok g₂) ∧
      generate_batch m p false 0 (n - 1) g = (pre, .ok g₁) ∧
      drawRecord (n - 1) m p true g₁ = .ok (r, g₂) ∧
      (∀ x ∈ pre, x.is_last = false) ∧ pre.length = n - 1 ∧ r.is_last = true := by
  rcases hB : generate_batch m p false 0 (n - 1) g with ⟨pre, res⟩
  obtain ⟨g₁, hg₁⟩ := generate_batch_ok_of_valid hp hm false (n - 1) 0 g
  rw [hB] at hg₁
  simp only at hg₁
  subst hg₁
  obtain ⟨r, g₂, hd⟩ := drawRecord_ok_of_valid (n - 1) true g₁ hp hm
  have hd' : drawRecord (n - 1) m p (true && (0 : Nat) == 0) g₁ = .ok (r, g₂) := by
    rw [show (true && ((0 : Nat) == 0)) = true from rfl]; exact hd
  have hD : generate_batch m p true (n - 1) 1 g₁ = ([r], .ok g₂) := by
    rw [show (1 : Nat) = 0 + 1 from rfl, generate_batch_succ_eq hd']
    rfl
  refine ⟨pre, r, g₁, g₂, ?_, rfl, hd, ?_, ?_, (drawRecord_ok hd).2.1⟩
  · conv_lhs => rw [show n = (n - 1) + 1 by omega]
    rw [generate_batch_split (le_refl 1) (n - 1) 0 g, hB]
    dsimp only
    rw [Nat.zero_add, hD]
  · have hf : ∀ x ∈ (generate_batch m p false 0 (n - 1) g).1, x.is_last = false :=
      generate_batch_false_flags (n - 1) 0 g
    rw [hB] at hf
    exact hf
  · have hids := generate_batch_ids hp hm false (n - 1) 0 g
    rw [hB] at hids
    have hlen := congrArg List.length hids
    simpa using hlen

theorem generate_batch_ids_of_ok {m p : Int} {last : Bool} :
    ∀ (k s : Nat) (g : RState) (gf : RState),
      (generate_batch m p last s k g).2 = .ok gf →
      (generate_batch m p last s k g).1.map RecParts.seq_id = List.range' s k := by
  intro k
  induction k with
  | zero => intro s g gf _; rfl
  | succ k ih =>
    intro s g gf hok
    cases hd : drawRecord s m p (last && k == 0) g with
    | error e =>
      rw [generate_batch_succ_err hd] at hok
      exact absurd hok (by simp)
    | ok v =>
      obtain ⟨r, g₁⟩ := v
      rw [generate_batch_succ_eq hd] at hok ⊢
      have hid : r.seq_id = s := (drawRecord_ok hd).1
      show r.seq_id :: _ = List.range' s (k + 1)
      rw [List.range'_succ, hid, ih (s + 1) g₁ gf hok]

theorem loopBatches_eq_flat_of_ok {m p : Int} {n bs : Nat} :
    ∀ (rem : Nat), ∀ (s : Nat) (g gf : RState) (c : Nat), 1 ≤ c → c ≤ bs →
      n = s + rem * bs + c →
      (loopBatches m p n bs (rem + 1) s g).2 = .ok gf →
      loopBatches m p n bs (rem + 1) s g = generate_batch m p true s (n - s) g := by
  intro rem
  induction rem with
  | zero =>
    intro s g gf c hc1 hc2 hn hok
    have hmin : min bs (n - s) = n - s := by omega
    rcases hB : generate_batch m p ((0 : Nat) == 0) s (min bs (n - s)) g with ⟨recs, res⟩
    cases res with
    | error e =>
      rw [loopBatches_succ_err hB] at hok
      exact absurd hok (by simp)
    | ok g' =>
      rw [loopBatches_succ_ok hB]
      have hBtrue : generate_batch m p true s (n - s) g = (recs, .ok g') := by
        rw [show (true : Bool) = ((0 : Nat) == 0) from rfl, ← hmin]
        exact hB
      rw [hBtrue]
      simp [loopBatches]
  | succ rem ih =>
    intro s g gf c hc1 hc2 hn hok
    have hsm : (rem + 1) * bs = rem * bs + bs := Nat.succ_mul rem bs
    rw [hsm] at hn
    have hge : bs + 1 ≤ n - s := by
      generalize rem * bs = A at hn
      omega
    have hmin : min bs (n - s) = bs := by omega
    rcases hB : generate_batch m p ((rem + 1 : Nat) == 0) s (min bs (n - s)) g
      with ⟨recs, res⟩
    cases res with
    | error e =>
      rw [loopBatches_succ_err hB] at hok
      exact absurd hok (by simp)
    | ok g' =>
      rw [loopBatches_succ_ok hB] at hok ⊢
      simp only at hok
      have hinv : n = (s + bs) + rem * bs + c := by
        generalize rem * bs = A at hn ⊢
        omega
      rw [ih (s + bs) g' gf c hc1 hc2 hinv hok]
      have hk : 1 ≤ n - s - bs := by
        generalize rem * bs = A at hn
        omega
      have hns : n - s = bs + (n - s - bs) := by
        generalize rem * bs = A at hn
        omega
      have hBfalse : generate_batch m p false s bs g = (recs, .ok g') := by
        rw [show (false : Bool) = ((rem + 1 : Nat) == 0) from rfl, ← hmin]
        exact hB
      rw [hns, generate_batch_split hk bs s g, hBfalse, Nat.sub_sub]

theorem run_multi_of_ok {m p : Int} {n b : Nat} {g gf : RState}
    (hok : (run_multi m p n b g).2 = .ok gf) :
    run_multi m p n b g = generate_batch m p true 0 n g ∧ 1 ≤ n ∧ 1 ≤ b := by
  have hrm : run_multi m p n b g =
      (if min b n = 0 then (([], .error "ZeroDivisionError") : List RecParts × Except String RState)
        else loopBatches m p n (min b n) ((n + min b n - 1) / min b n) 0 g) := rfl
  by_cases hbs : min b n = 0
  · rw [hrm, if_pos hbs] at hok
    exact absurd hok (by simp)
  · have hbs1 : 1 ≤ min b n := by omega
    obtain ⟨rem, c, hq, hc1, hc2, hnc⟩ := ceil_decomp n (min b n) hbs1 (by omega)
    rw [hrm, if_neg hbs] at hok ⊢
    rw [hq] at hok ⊢
    rw [loopBatches_eq_flat_of_ok rem 0 g gf c hc1 hc2 (by rw [Nat.zero_add]; exact hnc) hok,
      Nat.sub_zero]
    exact ⟨rfl, by omega, by omega⟩

/-- C1: for every §6-valid configuration (`1 ≤ max_polytail ≤ max_length`,
`num_sequences ≥ 1`, `batch_size ≥ 1`) and every seeded random stream, the
records and bytes `makePolyX_multi` writes to the sink are a function of
(max_length, max_polytail, num_sequences, stream) alone: two runs with the
same config and stream, under any two batch partitionings (e.g. batch_size 3
versus batch_size 25 with 25 sequences), produce identical output.  The
worker count does not occur in the model at all because the source awaits
each batch's `future.result()` before submitting the next batch, so the
thread count can affect neither the draw order nor the write order. -/
theorem output_deterministic_and_batch_invariant (m p : Int) (n b₁ b₂ : Nat)
    (g : RState) (hp : 1 ≤ p) (hm : p ≤ m) (hn : 1 ≤ n)
    (hb₁ : 1 ≤ b₁) (hb₂ : 1 ≤ b₂) :
    run_multi m p n b₁ g = run_multi m p n b₂ g ∧
    run_multi_bytes m p n b₁ g = run_multi_bytes m p n b₂ g := by
  have h1 := run_multi_eq_flat hp hm hn hb₁ g
  have h2 := run_multi_eq_flat hp hm hn hb₂ g
  refine ⟨h1.trans h2.symm, ?_⟩
  unfold run_multi_bytes
  rw [h1, h2]

theorem output_deterministic_and_batch_invariant_witness :
    run_multi 10 3 25 3 ⟨fun k => k, 0⟩ = run_multi 10 3 25 25 ⟨fun k => k, 0⟩ ∧
    run_multi_bytes 10 3 25 3 ⟨fun k => k, 0⟩ =
      run_multi_bytes 10 3 25 25 ⟨fun k => k, 0⟩ :=
  output_deterministic_and_batch_invariant 10 3 25 3 25 ⟨fun k => k, 0⟩
    (by decide) (by decide) (by decide) (by decide) (by decide)

/-- C2: every run with `num_sequences = n ≥ 1` that completes without error
writes records whose ids are exactly `0, 1, ..., n-1` in that order: strictly
ascending, no gaps, no duplicates, no interleaving between batches. -/
theorem ids_strictly_ascending_no_gaps (m p : Int) (n b : Nat) (g gf : RState)
    (hn : 1 ≤ n) (hok : (run_multi m p n b g).2 = .ok gf) :
    (run_multi m p n b g).1.map RecParts.seq_id = List.range n := by
  obtain ⟨heq, -, -⟩ := run_multi_of_ok hok
  rw [heq] at hok ⊢
  rw [List.range_eq_range']
  exact generate_batch_ids_of_ok n 0 g gf hok

theorem ids_strictly_ascending_no_gaps_witness :
    (run_multi 3 2 5 2 ⟨fun k => k, 0⟩).1.map RecParts.seq_id = List.range 5 :=
  ids_strictly_ascending_no_gaps 3 2 5 2 ⟨fun k => k, 0⟩ ⟨fun k => k, 19⟩
    (by decide) rfl

/-- C3: for every §6-valid run, exactly one emitted record's text carries the
` onlytail=true` marker; it is the tail-only record, which has id
`num_sequences - 1` and `seqlen = 0`; and when `num_sequences = 1` the single
record produced is that tail-only record, so no non-tail record is generated. -/
theorem unique_tail_only_record (m p : Int) (n b : Nat) (g : RState)
    (hp : 1 ≤ p) (hm : p ≤ m) (hn : 1 ≤ n) (hb : 1 ≤ b) :
    ∃ recs gf, run_multi m p n b g = (recs, .ok gf) ∧
      recs.length = n ∧
      (∀ r ∈ recs, containsSeg markerChars (formatRecord r) = r.is_last) ∧
      (recs.filter (fun r => r.is_last)).length = 1 ∧
      (∀ r ∈ recs, r.is_last = true → r.seq_id = n - 1 ∧ r.seq_length = 0) ∧
      (n = 1 → ∃ r, recs = [r] ∧ r.is_last = true) := by
  obtain ⟨pre, r, g₁, g₂, hsum, hpre, hd, hflags, hplen, hrl⟩ :=
    generate_batch_true_decomp hp hm hn g
  have hrm := run_multi_eq_flat hp hm hn hb g
  obtain ⟨hid, -, -, -, -, -, -, hlast0, -⟩ := drawRecord_ok hd
  refine ⟨pre ++ [r], g₂, by rw [hrm, hsum], ?_, ?_, ?_, ?_, ?_⟩
  · simp only [List.length_append, List.length_cons, List.length_nil]
    omega
  · intro x hx
    rcases List.mem_append.mp hx with hxp | hxr
    · have hmem : ∀ y ∈ (generate_batch m p false 0 (n - 1) g).1,
          ∃ id last' g₀ g₁', drawRecord id m p last' g₀ = .ok (y, g₁') :=
        generate_batch_mem (n - 1) 0 g
      rw [hpre] at hmem
      obtain ⟨id, last', g₀, g₁', hdx⟩ := hmem x hxp
      exact marker_eq_is_last_of_drawn hdx
    · rw [List.mem_singleton.mp hxr]
      exact marker_eq_is_last_of_drawn hd
  · rw [List.filter_append]
    have h1 : pre.filter (fun r => r.is_last) = [] :=
      List.filter_eq_nil_iff.mpr (fun a ha => by simp [hflags a ha])
    rw [h1]
    simp [hrl]
  · intro x hx hxl
    rcases List.mem_append.mp hx with hxp | hxr
    · rw [hflags x hxp] at hxl
      exact absurd hxl (by simp)
    · rw [List.mem_singleton.mp hxr] at hxl ⊢
      exact ⟨hid, (hlast0 rfl).1⟩
  · intro h1
    have hpre0 : pre = [] := List.eq_nil_of_length_eq_zero (by omega)
    exact ⟨r, by rw [hpre0, List.nil_append], hrl⟩

theorem unique_tail_only_record_witness :
    ∃ recs gf, run_multi 3 2 4 2 ⟨fun k => k, 0⟩ = (recs, .ok gf) ∧
      recs.length = 4 ∧
      (∀ r ∈ recs, containsSeg markerChars (formatRecord r) = r.is_last) ∧
      (recs.filter (fun r => r.is_last)).length = 1 ∧
      (∀ r ∈ recs, r.is_last = true → r.seq_id = 4 - 1 ∧ r.seq_length = 0) ∧
      ((4 : Nat) = 1 → ∃ r, recs = [r] ∧ r.is_last = true) :=
  unique_tail_only_record 3 2 4 2 ⟨fun k => k, 0⟩
    (by decide) (by decide) (by decide) (by decide)

/-- C4 counterexample: the code performs no configuration validation at all.
With max_length = 1 < max_polytail = 2 (violating §6), num_sequences = 3,
batch_size = 1 and the stream k ↦ k, the run starts, generates records, and
writes a full record's bytes to the sink before failing with a ValueError
raised mid-generation — there is no InvalidConfig detected at run start and
bytes do reach the sink. -/
theorem no_upfront_validation_counterexample :
    (1 : Int) < 2 ∧
    run_multi_bytes 1 2 3 1 ⟨fun k => k, 0⟩ ≠ [] ∧
    (run_multi 1 2 3 1 ⟨fun k => k, 0⟩).2 =
      .error "ValueError: empty range for randrange" :=
  ⟨by decide, by decide, rfl⟩

/-- C4 amended: there is no upfront InvalidConfig check.  A configuration with
max_polytail < 1 does fail before any record is generated and before any bytes
are written, but only because the very first record's tail draw
`randint(1, max_polytail)` raises a ValueError; for max_polytail > max_length
the run begins and fails only when some drawn tail exceeds max_length,
possibly after earlier batches' bytes have been written (see the
counterexample), and it may even complete. -/
theorem invalid_polytail_fails_before_output (m p : Int) (n b : Nat) (g : RState)
    (hp : p < 1) (hn : 1 ≤ n) (hb : 1 ≤ b) :
    run_multi m p n b g = ([], .error "ValueError: empty range for randrange") := by
  have hbs : 1 ≤ min b n := le_min hb hn
  show (if min b n = 0 then
      (([], .error "ZeroDivisionError") : List RecParts × Except String RState)
    else loopBatches m p n (min b n) ((n + min b n - 1) / min b n) 0 g) = _
  rw [if_neg (by omega)]
  obtain ⟨rem, c, hq, hc1, hc2, hnc⟩ := ceil_decomp n (min b n) hbs hn
  rw [hq]
  apply loopBatches_succ_err
  obtain ⟨k, hk⟩ : ∃ k, min (min b n) (n - 0) = k + 1 :=
    ⟨min (min b n) (n - 0) - 1, by omega⟩
  rw [hk]
  exact generate_batch_succ_err (drawRecord_err_of_p_lt_one 0 _ g hp)

theorem invalid_polytail_fails_before_output_witness :
    run_multi 5 0 2 3 ⟨fun k => k, 0⟩ =
      ([], .error "ValueError: empty range for randrange") :=
  invalid_polytail_fails_before_output 5 0 2 3 ⟨fun k => k, 0⟩
    (by decide) (by decide) (by decide)

/-- C5: for every generated record, the quality string has the exact shape of
the source: when `body_length > 0`, positions `0 .. body_length-2` hold the
high-quality symbol `I`, position `body_length-1` holds the low-transition
symbol `<`, position `body_length` holds the high-transition symbol `>`, and
the remaining `tail_length-1` positions hold the low-quality symbol `9`;
when `body_length = 0` the quality is `9` repeated `tail_length` times. -/
theorem quality_string_shape (seq_id : Nat) (m p : Int) (last : Bool)
    (g g' : RState) (r : RecParts)
    (h : drawRecord seq_id m p last g = .ok (r, g')) :
    (1 ≤ r.seq_length →
      (∀ i, i < r.seq_length - 1 →
        (qualOf r.seq_length r.polytail_length)[i]? = some 'I') ∧
      (qualOf r.seq_length r.polytail_length)[r.seq_length - 1]? = some '<' ∧
      (qualOf r.seq_length r.polytail_length)[r.seq_length]? = some '>' ∧
      (∀ j, r.seq_length + 1 ≤ j → j < r.seq_length + r.polytail_length →
        (qualOf r.seq_length r.polytail_length)[j]? = some '9')) ∧
    (r.seq_length = 0 →
      qualOf r.seq_length r.polytail_length =
        List.replicate r.polytail_length '9') := by
  obtain ⟨-, -, hT, -⟩ := drawRecord_ok h
  exact ⟨fun hL => qualOf_getElem hL hT, fun h0 => by rw [h0]; exact qualOf_zero _⟩

theorem quality_string_shape_witness :
    (1 ≤ 2 →
      (∀ i, i < 2 - 1 → (qualOf 2 1)[i]? = some 'I') ∧
      (qualOf 2 1)[2 - 1]? = some '<' ∧
      (qualOf 2 1)[2]? = some '>' ∧
      (∀ j, 2 + 1 ≤ j → j < 2 + 1 → (qualOf 2 1)[j]? = some '9')) ∧
    ((2 : Nat) = 0 → qualOf 2 1 = List.replicate 1 '9') :=
  quality_string_shape 0 3 1 false ⟨fun k => k, 0⟩ ⟨fun k => k, 5⟩
    { seq_id := 0, polytail_length := 1, seq_length := 2, polytail := ['C'],
      seq := ['T', 'A'], is_last := false } rfl

/-- C6: for every non-tail-only record generated under a valid configuration
`1 ≤ max_polytail ≤ max_length`, the drawn lengths satisfy
`body_length + tail_length ≤ max_length` and `1 ≤ tail_length ≤ max_polytail`;
in the boundary case `max_polytail = max_length = 1`, every non-tail record
has `body_length = 0` and `tail_length = 1`. -/
theorem length_bounds_non_tail (seq_id : Nat) (m p : Int) (g g' : RState)
    (r : RecParts) (hp : 1 ≤ p) (hm : p ≤ m)
    (h : drawRecord seq_id m p false g = .ok (r, g')) :
    r.seq_length + r.polytail_length ≤ m.toNat ∧
    1 ≤ r.polytail_length ∧ (r.polytail_length : Int) ≤ p ∧
    (p = 1 → m = 1 → r.seq_length = 0 ∧ r.polytail_length = 1) := by
  obtain ⟨-, -, hT1, hTp, -, -, -, -, hsum⟩ := drawRecord_ok h
  have hs := hsum rfl
  refine ⟨by omega, hT1, hTp, ?_⟩
  rintro rfl rfl
  constructor <;> omega

theorem length_bounds_non_tail_witness :
    (0 : Nat) + 1 ≤ (1 : Int).toNat ∧ 1 ≤ 1 ∧ ((1 : Nat) : Int) ≤ 1 ∧
    ((1 : Int) = 1 → (1 : Int) = 1 → (0 : Nat) = 0 ∧ (1 : Nat) = 1) :=
  length_bounds_non_tail 0 1 1 ⟨fun _ => 0, 0⟩ ⟨fun _ => 0, 3⟩
    { seq_id := 0, polytail_length := 1, seq_length := 0, polytail := ['A'],
      seq := [], is_last := false } (by decide) (by decide) rfl

/-- C7: for every generated record (tail-only or not), the quality string's
length equals `body_length + tail_length` exactly, which also equals the
length of the sequence line (body concatenated with tail). -/
theorem quality_length_matches (seq_id : Nat) (m p : Int) (last : Bool)
    (g g' : RState) (r : RecParts)
    (h : drawRecord seq_id m p last g = .ok (r, g')) :
    (qualOf r.seq_length r.polytail_length).length =
      r.seq_length + r.polytail_length ∧
    (r.seq ++ r.polytail).length = r.seq_length + r.polytail_length := by
  obtain ⟨-, -, hT, -, ⟨pb, -, hrep⟩, hlen, -⟩ := drawRecord_ok h
  refine ⟨qualOf_length hT, ?_⟩
  rw [List.length_append, hlen, hrep, List.length_replicate]

theorem quality_length_matches_witness :
    (qualOf 2 1).length = 2 + 1 ∧
    ((['T', 'A'] : List Char) ++ ['C']).length = 2 + 1 :=
  quality_length_matches 0 3 1 false ⟨fun k => k, 0⟩ ⟨fun k => k, 5⟩
    { seq_id := 0, polytail_length := 1, seq_length := 2, polytail := ['C'],
      seq := ['T', 'A'], is_last := false } rfl

/-- C8: every record is serialized as exactly four newline-terminated lines:
a header `@seq_<id> poly=<tail_length> seqlen=<body_length>` carrying the
` onlytail=true` suffix exactly when the record is the tail-only one, then the
line `<body><tail>`, then `+`, then the quality line; none of the four line
bodies contains a newline and the whole record contains exactly 4 newlines. -/
theorem record_serialization_format (seq_id : Nat) (m p : Int) (last : Bool)
    (g g' : RState) (r : RecParts)
    (h : drawRecord seq_id m p last g = .ok (r, g')) :
    generate_sequence seq_id m p last g = .ok (formatRecord r, g') ∧
    formatRecord r =
      headerOf r ++ ['\n'] ++ (r.seq ++ r.polytail) ++ ['\n', '+', '\n'] ++
        qualOf r.seq_length r.polytail_length ++ ['\n'] ∧
    headerOf r = "@seq_".data ++ natChars r.seq_id ++ " poly=".data ++
      natChars r.polytail_length ++ " seqlen=".data ++ natChars r.seq_length ++
      (if r.is_last then markerChars else []) ∧
    r.is_last = last ∧
    List.count '\n' (formatRecord r) = 4 ∧
    '\n' ∉ headerOf r ∧ '\n' ∉ (r.seq ++ r.polytail) ∧
    '\n' ∉ qualOf r.seq_length r.polytail_length := by
  obtain ⟨-, hlast, -, -, -, -, hseq, -⟩ := drawRecord_ok h
  have hpt := drawn_polytail_bases h
  refine ⟨?_, rfl, rfl, hlast, count_newline_formatRecord hseq hpt,
    newline_not_mem_headerOf r, ?_, newline_not_mem_qualOf⟩
  · unfold generate_sequence
    rw [h]
  · intro hc
    rcases List.mem_append.mp hc with h1 | h2
    · exact not_mem_of_bases hseq (by decide) h1
    · exact not_mem_of_bases hpt (by decide) h2

theorem record_serialization_format_witness :
    List.count '\n' (formatRecord
      { seq_id := 7, polytail_length := 1, seq_length := 0, polytail := ['C'],
        seq := [], is_last := true }) = 4 :=
  (record_serialization_format 7 3 2 true ⟨fun k => k, 0⟩ ⟨fun k => k, 2⟩
    { seq_id := 7, polytail_length := 1, seq_length := 0, polytail := ['C'],
      seq := [], is_last := true } rfl).2.2.2.2.1

/-- C9: for the same (max_length, max_polytail, num_sequences) and the same
seeded random stream, the single-threaded `makePolyX.py` and the batched
`makePolyX_multi.py` perform the same sequence of draws per record and write
byte-identical record data to the sink under any §6-valid batch size: the
batched implementation is an exact refinement of the sequential one. -/
theorem single_multi_refinement (m p : Int) (n b : Nat) (g : RState)
    (hp : 1 ≤ p) (hm : p ≤ m) (hn : 1 ≤ n) (hb : 1 ≤ b) :
    run_single m p n g = run_multi m p n b g ∧
    run_single_bytes m p n g = run_multi_bytes m p n b g := by
  have h1 := run_single_eq_flat hp hm hn g
  have h2 := run_multi_eq_flat hp hm hn hb g
  refine ⟨h1.trans h2.symm, ?_⟩
  unfold run_single_bytes run_multi_bytes
  rw [h1, h2]

theorem single_multi_refinement_witness :
    run_single 10 3 5 ⟨fun k => k, 0⟩ = run_multi 10 3 5 2 ⟨fun k => k, 0⟩ ∧
    run_single_bytes 10 3 5 ⟨fun k => k, 0⟩ =
      run_multi_bytes 10 3 5 2 ⟨fun k => k, 0⟩ :=
  single_multi_refinement 10 3 5 2 ⟨fun k => k, 0⟩
    (by decide) (by decide) (by decide) (by decide)

/-- C10: a non-last record may be generated with `body_length = 0` (the body
length is drawn from `[0, max_length - tail_length]`, which contains 0); such
a record has `seqlen = 0` and an all-low-quality string but no
` onlytail=true` marker in its serialized text, so `seqlen=0` does not imply
tail-only: the marker occurs in a record's text if and only if the record was
generated with `is_last` true. -/
theorem seqlen_zero_without_marker (seq_id : Nat) (m p : Int) (last : Bool)
    (g g' : RState) (r : RecParts) (hp : 1 ≤ p) (hm : p ≤ m)
    (h : drawRecord seq_id m p last g = .ok (r, g')) :
    containsSeg markerChars (formatRecord r) = r.is_last ∧
    (∃ g₀ r₀ g₁, drawRecord seq_id m p false g₀ = .ok (r₀, g₁) ∧
      r₀.seq_length = 0 ∧ r₀.is_last = false ∧
      qualOf r₀.seq_length r₀.polytail_length =
        List.replicate r₀.polytail_length '9' ∧
      containsSeg markerChars (formatRecord r₀) = false) := by
  refine ⟨marker_eq_is_last_of_drawn h, ?_⟩
  have hr : randint 1 p (⟨fun _ => 0, 0⟩ : RState) = .ok (1, ⟨fun _ => 0, 1⟩) := by
    rw [randint_of_le _ hp]
    simp
  have hr2 : randint 0 (m - 1) (choiceBase ⟨fun _ => 0, 1⟩).2 =
      .ok (0, ⟨fun _ => 0, 3⟩) := by
    have hcb : (choiceBase (⟨fun _ => 0, 1⟩ : RState)).2 =
        (⟨fun _ => 0, 2⟩ : RState) := rfl
    rw [hcb, randint_of_le _ (show (0 : Int) ≤ m - 1 by omega)]
    simp
  have hd := drawRecord_false_eq seq_id m p hr hr2
  refine ⟨⟨fun _ => 0, 0⟩, _, _, hd, rfl, rfl, qualOf_zero _, ?_⟩
  exact marker_not_containsSeg rfl (choicesBases_mem _ _) (drawn_polytail_bases hd)

theorem seqlen_zero_without_marker_witness :
    containsSeg markerChars (formatRecord
      { seq_id := 7, polytail_length := 1, seq_length := 0, polytail := ['C'],
        seq := [], is_last := true }) = true ∧
    (∃ g₀ r₀ g₁, drawRecord 7 3 2 false g₀ = .ok (r₀, g₁) ∧
      r₀.seq_length = 0 ∧ r₀.is_last = false ∧
      qualOf r₀.seq_length r₀.polytail_length =
        List.replicate r₀.polytail_length '9' ∧
      containsSeg markerChars (formatRecord r₀) = false) :=
  seqlen_zero_without_marker 7 3 2 true ⟨fun k => k, 0⟩ ⟨fun k => k, 2⟩
    { seq_id := 7, polytail_length := 1, seq_length := 0, polytail := ['C'],
      seq := [], is_last := true } (by decide) (by decide) rfl

end ReadFX
